import Mathlib

/-!
Verification of the syclops postprocessing coordination layer.

Shallow embedding of the metadata-ledger, step-synchronizer, instance-identity
hashing and bounding-box postprocessing code
(src/syclops/postprocessing/postprocessor_base.py,
src/syclops/postprocessing/postprocessor_interface.py,
src/syclops/postprocessing/bounding_boxes.py,
src/syclops/utility/general_utils.py,
src/syclops/blender/sensor_outputs/object_positions.py,
src/syclops/blender/sensor_outputs/pixel_annotation.py).

Machine reals that the Python code handles as float64 are modelled as exact
rationals; each place where the float/rational distinction could matter is
flagged in a comment at the definition.
-/

set_option allowUnsafeReducibility true in
attribute [semireducible] Rat.mul Rat.inv Rat.add Rat.sub Rat.div Rat.neg

namespace Syclops

/-! ## Rounding

Model of numpy.round / Python float formatting rounding: round half to even
(banker's rounding), exact over the rationals. -/

/-- Round a rational to the nearest integer, ties to even — the rounding mode of
numpy.round used in ObjectPositions._calculate_instance_id and of printf-style
"%.6f" formatting. -/
def roundHalfEven (q : ℚ) : ℤ :=
  let f : ℤ := q.floor
  let r : ℚ := q - (f : ℚ)
  if r < 1/2 then f
  else if 1/2 < r then f + 1
  else if f % 2 = 0 then f else f + 1

/-! ## SHA-256 over byte lists

Concrete model of hashlib.sha256 as called by utility.general_utils.hash_vector.
Bytes are naturals < 256; 32-bit words are naturals kept below 2^32 by
explicit reduction. -/

/-- Reduce to a 32-bit word. -/
def w32 (n : Nat) : Nat := n % 4294967296

/-- 32-bit right rotation. -/
def rotr32 (x n : Nat) : Nat := w32 ((x >>> n) ||| (x <<< (32 - n)))

/-- SHA-256 big Sigma0. -/
def bSig0 (x : Nat) : Nat := rotr32 x 2 ^^^ rotr32 x 13 ^^^ rotr32 x 22

/-- SHA-256 big Sigma1. -/
def bSig1 (x : Nat) : Nat := rotr32 x 6 ^^^ rotr32 x 11 ^^^ rotr32 x 25

/-- SHA-256 small sigma0. -/
def sSig0 (x : Nat) : Nat := rotr32 x 7 ^^^ rotr32 x 18 ^^^ (x >>> 3)

/-- SHA-256 small sigma1. -/
def sSig1 (x : Nat) : Nat := rotr32 x 17 ^^^ rotr32 x 19 ^^^ (x >>> 10)

/-- SHA-256 choice function; bitwise not of a 32-bit word is xor with the
all-ones mask. -/
def chWord (x y z : Nat) : Nat := (x &&& y) ^^^ ((x ^^^ 4294967295) &&& z)

/-- SHA-256 majority function. -/
def majWord (x y z : Nat) : Nat := (x &&& y) ^^^ (x &&& z) ^^^ (y &&& z)

/-- The 64 SHA-256 round constants (FIPS 180-4, written in decimal). -/
def shaK : List Nat :=
  [1116352408, 1899447441, 3049323471, 3921009573, 961987163,
   1508970993, 2453635748, 2870763221, 3624381080, 310598401,
   607225278, 1426881987, 1925078388, 2162078206, 2614888103,
   3248222580, 3835390401, 4022224774, 264347078, 604807628,
   770255983, 1249150122, 1555081692, 1996064986, 2554220882,
   2821834349, 2952996808, 3210313671, 3336571891, 3584528711,
   113926993, 338241895, 666307205, 773529912, 1294757372,
   1396182291, 1695183700, 1986661051, 2177026350, 2456956037,
   2730485921, 2820302411, 3259730800, 3345764771, 3516065817,
   3600352804, 4094571909, 275423344, 430227734, 506948616,
   659060556, 883997877, 958139571, 1322822218, 1537002063,
   1747873779, 1955562222, 2024104815, 2227730452, 2361852424,
   2428436474, 2756734187, 3204031479, 3329325298]

/-- The SHA-256 initial hash state (FIPS 180-4, written in decimal). -/
def shaInit : List Nat :=
  [1779033703, 3144134277, 1013904242, 2773480762,
   1359893119, 2600822924, 528734635, 1541459225]

/-- Big-endian 8-byte encoding of a natural (the padded bit-length field). -/
def be8 (n : Nat) : List Nat :=
  [n / 2^56 % 256, n / 2^48 % 256, n / 2^40 % 256, n / 2^32 % 256,
   n / 2^24 % 256, n / 2^16 % 256, n / 2^8 % 256, n % 256]

/-- Big-endian 4-byte encoding of a 32-bit word. -/
def be4 (n : Nat) : List Nat :=
  [n / 2^24 % 256, n / 2^16 % 256, n / 2^8 % 256, n % 256]

/-- SHA-256 message padding: append 0x80, zero bytes to 56 mod 64, then the
bit length as 8 big-endian bytes. -/
def padMessage (msg : List Nat) : List Nat :=
  let L := msg.length
  let k := (64 - (L + 9) % 64) % 64
  msg ++ [0x80] ++ List.replicate k 0 ++ be8 (8 * L)

/-- Split a list into consecutive chunks of n elements (fuel-based recursion on
the length). -/
def chunkAux (n : Nat) : Nat → List α → List (List α)
  | 0, _ => []
  | _, [] => []
  | fuel + 1, l => l.take n :: chunkAux n fuel (l.drop n)

/-- Split a list into consecutive chunks of n elements. -/
def chunks (n : Nat) (l : List α) : List (List α) := chunkAux n l.length l

/-- The 16 initial 32-bit message-schedule words of a 64-byte block, big-endian. -/
def wordsOfBlock (block : List Nat) : List Nat :=
  (chunks 4 block).map (fun b => b.foldl (fun a x => a * 256 + x) 0)

/-- One message-schedule extension step: append word t from words t-2, t-7,
t-15, t-16. -/
def scheduleStep (ws : List Nat) : List Nat :=
  let t := ws.length
  ws ++ [w32 (sSig1 (ws.getD (t - 2) 0) + ws.getD (t - 7) 0 +
              sSig0 (ws.getD (t - 15) 0) + ws.getD (t - 16) 0)]

/-- Extend the 16 block words to the full 64-entry message schedule. -/
def messageSchedule (ws : List Nat) : List Nat := Nat.repeat scheduleStep 48 ws

/-- One SHA-256 compression round on the 8-word working state. -/
def compressRound (st : List Nat) (kw : Nat × Nat) : List Nat :=
  match st with
  | [a, b, c, d, e, f, g, h] =>
    let t1 := w32 (h + bSig1 e + chWord e f g + kw.1 + kw.2)
    let t2 := w32 (bSig0 a + majWord a b c)
    [w32 (t1 + t2), a, b, c, w32 (d + t1), e, f, g]
  | other => other

/-- Compress one 64-byte block into the running 8-word hash state. -/
def compressBlock (hs : List Nat) (block : List Nat) : List Nat :=
  let ws := messageSchedule (wordsOfBlock block)
  let fin := (shaK.zip ws).foldl compressRound hs
  (hs.zip fin).map (fun p => w32 (p.1 + p.2))

/-- SHA-256 digest of a byte list, as its 32 digest bytes. -/
def sha256 (msg : List Nat) : List Nat :=
  let hs := (chunks 64 (padMessage msg)).foldl compressBlock shaInit
  (hs.map be4).flatten

set_option maxRecDepth 10000

/-- FIPS 180-4 test vector: the digest of the empty message. -/
theorem sha256_empty :
    sha256 [] =
      [227, 176, 196, 66, 152, 252, 28, 20, 154, 251, 244, 200, 153, 111,
       185, 36, 39, 174, 65, 228, 100, 155, 147, 76, 164, 149, 153, 27,
       120, 82, 184, 85] := by decide

/-- FIPS 180-4 test vector: the digest of the three bytes of "abc". -/
theorem sha256_abc :
    sha256 [97, 98, 99] =
      [186, 120, 22, 191, 143, 1, 207, 234, 65, 65, 64, 222, 93, 174, 34,
       35, 176, 3, 97, 163, 150, 23, 122, 156, 180, 16, 255, 97, 242, 0,
       21, 173] := by decide

/-! ## Instance identity hashing

Model of utility.general_utils.hash_vector and
ObjectPositions._calculate_instance_id.  The Python code rounds each
coordinate (numpy float64) to an integral value before hashing, so the values
reaching struct.pack are integral; the pack step is therefore modelled as the
IEEE-754 binary32 encoding of an integer (round to nearest, ties to even for
magnitudes above 2^24), serialized little-endian as struct.pack does on the
supported (little-endian) platforms. -/

/-- Fuel-based base-2 logarithm (index of the most significant bit), written
with structural recursion so the kernel can evaluate it. -/
def log2Aux : Nat → Nat → Nat
  | 0, _ => 0
  | fuel + 1, n => if 2 ≤ n then log2Aux fuel (n / 2) + 1 else 0

/-- Base-2 logarithm of a positive natural: the position of its most
significant bit. -/
def natLog2 (n : Nat) : Nat := log2Aux n n

/-- IEEE-754 binary32 bit pattern of an integer, round-to-nearest-even, with
overflow to infinity.  Models the float64-to-float32 conversion performed by
struct.pack with format character f on an integral float64 value. -/
def float32BitsOfInt (n : ℤ) : Nat :=
  if n = 0 then 0
  else
    let s : Nat := if n < 0 then 2^31 else 0
    let m : Nat := n.natAbs
    let e : Nat := natLog2 m
    if e ≤ 23 then
      s + (e + 127) * 2^23 + (m * 2^(23 - e) - 2^23)
    else
      let shift := e - 23
      let q := m >>> shift
      let r := m % 2^shift
      let half := 2^(shift - 1)
      let q' := if half < r then q + 1
                else if r < half then q
                else if q % 2 = 0 then q else q + 1
      let expMant : Nat × Nat :=
        if q' = 2^24 then (e + 1 + 127, 2^23) else (e + 127, q')
      if 255 ≤ expMant.1 then s + 255 * 2^23
      else s + expMant.1 * 2^23 + (expMant.2 - 2^23)

/-- Little-endian 4-byte serialization of a 32-bit word, as struct.pack
emits each packed float on a little-endian host. -/
def le4 (w : Nat) : List Nat :=
  [w % 256, w / 2^8 % 256, w / 2^16 % 256, w / 2^24 % 256]

/-- An integral float64 value as numpy.round produces it: its integer value
together with the sign bit when that value is zero — IEEE rounding keeps the
sign of the input, so a negative coordinate that rounds to zero yields -0.0,
which is a distinct byte pattern from +0.0 under struct.pack. -/
structure IntegralF64 where
  val : ℤ
  negZero : Bool
deriving DecidableEq

/-- numpy.round of an exact rational to an integral float64: round half to
even, and a strictly negative input that rounds to zero keeps its sign as
-0.0.  (A float64 input that is itself -0.0 has no rational counterpart;
every rational zero models +0.0.) -/
def roundF64 (q : ℚ) : IntegralF64 :=
  ⟨roundHalfEven q, decide (q < 0) && (roundHalfEven q == 0)⟩

/-- binary32 bit pattern of an integral float64: the float64-to-float32
conversion preserves the sign of zero, so -0.0 becomes the bit pattern with
only the sign bit set. -/
def float32BitsOfF64 (v : IntegralF64) : Nat :=
  if v.negZero then 2^31 else float32BitsOfInt v.val

/-- struct.pack with format fff on the three integral coordinate values:
each coordinate as a binary32, little-endian, in x, y, z order. -/
def packVector (v : IntegralF64 × IntegralF64 × IntegralF64) : List Nat :=
  le4 (float32BitsOfF64 v.1) ++ le4 (float32BitsOfF64 v.2.1) ++
    le4 (float32BitsOfF64 v.2.2)

/-- Big-endian signed 64-bit integer from 8 bytes, as
int.from_bytes(hash_digest, byteorder=big, signed=True). -/
def int64FromBytesBE (bs : List Nat) : ℤ :=
  let n : Nat := bs.foldl (fun a b => a * 256 + b) 0
  if n < 2^63 then (n : ℤ) else (n : ℤ) - 2^64

/-- utility.general_utils.hash_vector on an integral 3-vector: pack the three
coordinates with struct.pack fff, hash with SHA-256, and read the first 8
digest bytes as a signed big-endian 64-bit integer. -/
def hash_vector (v : IntegralF64 × IntegralF64 × IntegralF64) : ℤ :=
  int64FromBytesBE ((sha256 (packVector v)).take 8)

/-- ObjectPositions._calculate_instance_id: multiply each coordinate by 1000
and round with numpy.round (ties to even, sign of zero preserved), then
hash the rounded vector with hash_vector. -/
def calculate_instance_id (loc : ℚ × ℚ × ℚ) : ℤ :=
  hash_vector
    (roundF64 (loc.1 * 1000), roundF64 (loc.2.1 * 1000),
     roundF64 (loc.2.2 * 1000))

/-- Modelled from the spec: millimeter quantization of one coordinate —
multiply by 1000 and round to the nearest integer — amended with the IEEE
sign preservation the spec's words omit but the code's packing observes: a
negative coordinate rounding to zero quantizes to -0.0. -/
def specQuantizeMM (x : ℚ) : IntegralF64 := roundF64 (1000 * x)

/-- Modelled from the spec: instance identity computed by quantizing each
coordinate to millimeters, packing the three rounded values as fixed-width
32-bit floats in a fixed order, hashing with SHA-256, and interpreting the
first 8 bytes of the digest as a signed big-endian 64-bit integer. -/
def specIdentity (loc : ℚ × ℚ × ℚ) : ℤ :=
  int64FromBytesBE
    ((sha256
        (le4 (float32BitsOfF64 (specQuantizeMM loc.1)) ++
         le4 (float32BitsOfF64 (specQuantizeMM loc.2.1)) ++
         le4 (float32BitsOfF64 (specQuantizeMM loc.2.2)))).take 8)

/-- Sanity checks of the binary32 encoder against known IEEE-754 bit
patterns, including the round-to-even cases above 2^24. -/
theorem float32BitsOfInt_reference_values :
    float32BitsOfInt 1 = 0x3f800000 ∧ float32BitsOfInt 1500 = 0x44bb8000 ∧
      float32BitsOfInt (-2) = 0xc0000000 ∧
      float32BitsOfInt 16777217 = 0x4b800000 ∧
      float32BitsOfInt 16777219 = 0x4b800002 ∧
      float32BitsOfInt 25 = 0x41c80000 := by decide

/-- Sanity checks of the full identity pipeline against digests computed
independently with a reference SHA-256 implementation on the packed byte
strings of (0.0, 0.0, 0.0), (1500.0, 0.0, -2.0) and (-0.0, 0.0, 0.0) — the
last confirming that negative zero packs with the sign bit set and hashes
differently from positive zero. -/
theorem hash_vector_reference_values :
    hash_vector (⟨0, false⟩, ⟨0, false⟩, ⟨0, false⟩) = 0x15ec7bf0b50732b4 ∧
      hash_vector (⟨1500, false⟩, ⟨0, false⟩, ⟨-2, false⟩) =
        (0xdd10c8a8de541fe0 : ℤ) - 2^64 ∧
      hash_vector (⟨0, true⟩, ⟨0, false⟩, ⟨0, false⟩) =
        0x6f71d03b0fcc7380 := by
  exact ⟨by decide, by decide, by decide⟩

/-! ## Lock-guarded ledger reads and writes

Model of PostprocessorBase._safe_read / _safe_write and
utility.general_utils.AtomicYAMLWriter.  A ledger file's content is its
steps mapping, an association list from step number to that step's artifact
list (static header fields of the YAML files are not needed by any claim and
are omitted).  The filesystem maps paths to file contents; the advisory-lock
state maps lock paths to the number of seconds until that lock becomes free,
so an acquire with timeout t succeeds exactly when the wait is at most t. -/

/-- Errors raised by the lock-guarded ledger operations: TimeoutError from a
filelock Timeout, and Python's FileNotFoundError. -/
inductive LedgerError where
  | lockTimeout
  | fileNotFound
deriving DecidableEq

/-- A ledger's steps mapping: step number to artifact list, insertion order
preserved, as a Python dict holds it. -/
abbrev WriterData (A : Type) := List (Nat × A)

/-- Filesystem: path to file content, none when the file does not exist. -/
abbrev FileSys (A : Type) := String → Option (WriterData A)

/-- Advisory-lock state: lock path to seconds until the lock is free. -/
abbrev LockState := String → Nat

/-- The lock path used by every ledger operation: the ledger path plus the
".lock" suffix. -/
def lockPathOf (path : String) : String := path ++ ".lock"

/-- PostprocessorBase._safe_write: FileLock(path + ".lock", timeout=5); on
Timeout raise TimeoutError with the file untouched (the file is only opened
inside the acquired lock); otherwise replace the file content. -/
def safe_write (locks : LockState) (fs : FileSys A) (path : String)
    (d : WriterData A) : Except LedgerError Unit × FileSys A :=
  if 5 < locks (lockPathOf path) then (.error .lockTimeout, fs)
  else (.ok (), fun p => if p = path then some d else fs p)

/-- PostprocessorBase._safe_read: FileLock(path + ".lock", timeout=5); on
Timeout raise TimeoutError; otherwise open the file for reading — Python's
open raises FileNotFoundError when the file is absent, there is no
absent-file handling in _safe_read. -/
def safe_read (locks : LockState) (fs : FileSys A) (path : String) :
    Except LedgerError (WriterData A) :=
  if 5 < locks (lockPathOf path) then .error .lockTimeout
  else
    match fs path with
    | some d => .ok d
    | none => .error .fileNotFound

/-- Python dict assignment d[k] = v on an association list: overwrite the
value when the key is present, otherwise append the pair. -/
def dictInsert (m : WriterData A) (k : Nat) (v : A) : WriterData A :=
  if (m.map Prod.fst).contains k then
    m.map (fun p => if p.1 == k then (k, v) else p)
  else m ++ [(k, v)]

/-- AtomicYAMLWriter.add_step: insert step -> step_dicts into the steps
mapping of the in-memory data. -/
def add_step (data : WriterData A) (step : Nat) (stepDicts : A) :
    WriterData A :=
  dictInsert data step stepDicts

/-- AtomicYAMLWriter.__enter__: acquire the lock on filename + ".lock" with
timeout 10 (raising TimeoutError on Timeout), then read the YAML file,
falling back to the empty record when the file does not exist. -/
def atomicWriterEnter (locks : LockState) (fs : FileSys A) (path : String) :
    Except LedgerError (WriterData A) :=
  if 10 < locks (lockPathOf path) then .error .lockTimeout
  else .ok ((fs path).getD [])

/-- A complete AtomicYAMLWriter session: enter (lock plus read-or-empty),
a sequence of add_step calls, then exit, which writes the data back and
releases the lock. -/
def atomicWriterRun (locks : LockState) (fs : FileSys A) (path : String)
    (adds : List (Nat × A)) : Except LedgerError (FileSys A) :=
  (atomicWriterEnter locks fs path).map fun d0 =>
    let d := adds.foldl (fun acc p => add_step acc p.1 p.2) d0
    fun p => if p = path then some d else fs p

/-- Modelled from the spec: a ledger write whose advisory lock uses the
spec's stated default timeout of 10 seconds (the spec sentence
"acquire an exclusive advisory lock on path + .lock with a timeout
(default 10s)"), for comparison with safe_write. -/
def specSafeWrite (locks : LockState) (fs : FileSys A) (path : String)
    (d : WriterData A) : Except LedgerError Unit × FileSys A :=
  if 10 < locks (lockPathOf path) then (.error .lockTimeout, fs)
  else (.ok (), fun p => if p = path then some d else fs p)

/-! ## Step discovery

Model of PostprocessorBase._intersection_of_available_steps,
_get_dict_of_available_steps and the processed_steps update performed by
_update_metadata. -/

/-- One source's ledger as held in input_metadata: its steps mapping. -/
structure SourceMeta (A : Type) where
  steps : WriterData A
deriving DecidableEq

/-- The step-number keys of one source ledger. -/
def stepKeys (m : SourceMeta A) : List Nat := m.steps.map Prod.fst

/-- PostprocessorBase._intersection_of_available_steps: the step keys of the
first source filtered to those present in every source's step keys.  The
Python indexes all_steps[0], so it presupposes at least one source; the
empty-default head is only exercised under that hypothesis. -/
def intersection_of_available_steps (metas : List (SourceMeta A)) : List Nat :=
  let allSteps := metas.map stepKeys
  (allSteps.headD []).filter fun s => allSteps.all fun steps => steps.contains s

/-- One in-memory step record: the snapshot of each source's artifact list
for the step, and the finished flag.  The snapshot keeps one entry per
source, in source order; in the calling context the step is drawn from the
intersection, so every lookup yields some. -/
structure StepRec (A : Type) where
  sources : List (Option A)
  finished : Bool
deriving DecidableEq

/-- PostprocessorBase._get_dict_of_available_steps: keep the available steps
not already in processed_steps, and materialize a record with
finished = false and a snapshot of every source's artifact list. -/
def get_dict_of_available_steps (processed : List (Nat × StepRec A))
    (metas : List (SourceMeta A)) (available : List Nat) :
    List (Nat × StepRec A) :=
  (available.filter fun s => !(processed.map Prod.fst).contains s).map fun s =>
    (s, ⟨metas.map fun m => m.steps.lookup s, false⟩)

/-- The step numbers discovered by one metadata-update pass
(PostprocessorBase._update_metadata): the keys of the freshly materialized
records. -/
def discoveredSteps (processed : List (Nat × StepRec A))
    (metas : List (SourceMeta A)) : List Nat :=
  (get_dict_of_available_steps processed metas
    (intersection_of_available_steps metas)).map Prod.fst

/-- The processed_steps mapping after one metadata-update pass: dict.update
with the freshly discovered records, whose keys are all new, appends them. -/
def updateMetadataPass (processed : List (Nat × StepRec A))
    (metas : List (SourceMeta A)) : List (Nat × StepRec A) :=
  processed ++ get_dict_of_available_steps processed metas
    (intersection_of_available_steps metas)

/-! ## The polling run loop

Model of PostprocessorInterface.run after its sources are found, for a unit
with a single source ledger.  The evolving ledger is a trace: read number i
returns the list of step numbers present in the source ledger at that read.
Each loop iteration performs exactly one lock-guarded ledger read
(_update_metadata); the reads field counts them. -/

/-- Loop state: the unit's processed_steps record and the number of source
ledger reads performed so far. -/
structure PPState where
  processed : List (Nat × StepRec Unit)
  reads : Nat

/-- PostprocessorBase._update_metadata for a single-source unit: re-read the
source ledger (one more read) and materialize records for the newly
available steps. -/
def pollSource (trace : Nat → List Nat) (s : PPState) : PPState :=
  let metas := [SourceMeta.mk ((trace s.reads).map fun n => (n, ()))]
  { processed := updateMetadataPass s.processed metas, reads := s.reads + 1 }

/-- PostprocessorBase._get_unprocessed_step: the first step record with
finished = false, if any. -/
def get_unprocessed_step (processed : List (Nat × StepRec A)) :
    Option (Nat × StepRec A) :=
  processed.find? fun p => !p.2.finished

/-- The number of step records marked finished. -/
def finished_count (processed : List (Nat × StepRec A)) : Nat :=
  (processed.filter fun p => p.2.finished).length

/-- PostprocessorBase._finished_all_steps: the count of finished records
equals the expected step count. -/
def finished_all_steps (expected : Nat)
    (processed : List (Nat × StepRec A)) : Bool :=
  finished_count processed == expected

/-- PostprocessorBase._update_processed_step_dict: mark one step finished. -/
def update_processed_step_dict (processed : List (Nat × StepRec A))
    (stepId : Nat) : List (Nat × StepRec A) :=
  processed.map fun p =>
    if p.1 == stepId then (p.1, { p.2 with finished := true }) else p

/-- The while loop of PostprocessorInterface.run: while not all steps are
finished, update metadata (one ledger read), then process one unprocessed
step if there is one (processing and the unit's own output write perform no
source-ledger reads).  Fuel bounds the number of iterations; none means the
fuel was exhausted before the loop condition turned false. -/
def runLoop (trace : Nat → List Nat) (expected : Nat) :
    Nat → PPState → Option PPState
  | 0, _ => none
  | fuel + 1, s =>
    if finished_all_steps expected s.processed then some s
    else
      let s' := pollSource trace s
      match get_unprocessed_step s'.processed with
      | some p =>
        runLoop trace expected fuel
          ⟨update_processed_step_dict s'.processed p.1, s'.reads⟩
      | none => runLoop trace expected fuel s'

/-- PostprocessorInterface.run from the point all sources are found: run the
polling loop to the terminal state, then process_all_steps and the final
output-metadata write — neither of which reads the source ledger — and
return.  The second component is the total number of source-ledger reads the
whole run performs, which equals the count at loop exit. -/
def runPostprocessor (trace : Nat → List Nat) (expected fuel : Nat) :
    Option (PPState × Nat) :=
  (runLoop trace expected fuel ⟨[], 0⟩).map fun s => (s, s.reads)

/-! ## Bounding-box postprocessor

Model of BoundingBoxes.process_step, write_bb and _convert_to_output_format
on a pair of aligned label images.  Images are rectangular integer grids
(row-major).  numpy.unique returns its values sorted ascending, modelled by
dedup followed by insertion sort. -/

/-- A label image: rows of pixel values. -/
abbrev Grid := List (List ℤ)

/-- All pixels of two aligned images: ((row, col), semantic class,
instance id). -/
def gridPixels (sem inst : Grid) : List ((Nat × Nat) × ℤ × ℤ) :=
  ((sem.zip inst).enum.map fun rp =>
    (rp.2.1.zip rp.2.2).enum.map fun cp => ((rp.1, cp.1), cp.2)).flatten

/-- numpy.unique on integer values: distinct values in ascending order. -/
def sortedDedupInt (l : List ℤ) : List ℤ :=
  l.dedup.insertionSort (· ≤ ·)

/-- Minimum of a nonempty integer list (numpy.min); 0 as the unused default
for the empty list, whose numpy counterpart raises ValueError. -/
def listMinInt : List ℤ → ℤ
  | [] => 0
  | x :: xs => xs.foldl min x

/-- Minimum of a nonempty list of naturals, 0 for the empty list. -/
def listMinNat : List Nat → Nat
  | [] => 0
  | x :: xs => xs.foldl min x

/-- Maximum of a list of naturals. -/
def listMaxNat : List Nat → Nat
  | [] => 0
  | x :: xs => xs.foldl max x

/-- The per-instance class-count filter of BoundingBoxes.process_step lines
45-50: drop class assignments with count <= 1 percent of the instance's
pixels, then drop those with count <= 5 pixels.  The Python comparison
count > num_pixels * 0.01 on a float64 product agrees with the exact
rational comparison 100 * count > num_pixels for all integer counts and
pixel totals (the product's rounding error is far below the distance to the
nearest integer whenever the exact product is integral), so it is modelled
exactly. -/
def bbFilterCounts (pairs : List (ℤ × Nat)) (numPixels : Nat) :
    List (ℤ × Nat) :=
  (pairs.filter fun p => numPixels < 100 * p.2).filter fun p => 5 < p.2

/-- One output record of _convert_to_output_format, before text formatting:
class id and the normalized center/size fields. -/
structure BBox where
  classId : ℤ
  xc : ℚ
  yc : ℚ
  wn : ℚ
  hn : ℚ
deriving DecidableEq

/-- BoundingBoxes._convert_to_output_format on the pixel rectangle
(x, y, w, h) of an imgW-by-imgH image: normalized center and size. -/
def convert_to_output_format (x y w h imgW imgH : Nat) (classId : ℤ) : BBox :=
  ⟨classId, ((x : ℚ) + (w : ℚ) / 2) / imgW, ((y : ℚ) + (h : ℚ) / 2) / imgH,
    (w : ℚ) / imgW, (h : ℚ) / imgH⟩

/-- BoundingBoxes.write_bb: from the pixel coordinates of one box,
x and y are the minimal column and row and w and h the coordinate spans
(maximum minus minimum, with no +1); an empty coordinate set raises
ValueError inside numpy.min, which write_bb catches, writing nothing. -/
def write_bb (coords : List (Nat × Nat)) (imgW imgH : Nat) (classId : ℤ) :
    Option BBox :=
  match coords with
  | [] => none
  | _ =>
    let x := listMinNat (coords.map Prod.snd)
    let y := listMinNat (coords.map Prod.fst)
    let w := listMaxNat (coords.map Prod.snd) - x
    let h := listMaxNat (coords.map Prod.fst) - y
    some (convert_to_output_format x y w h imgW imgH classId)

/-- The configuration fields BoundingBoxes.process_step consults:
classes_to_skip (already flattened to a list by _get_classes_to_skip) and
the multiple_bb_per_instance flag (false when the key is absent). -/
structure BBConfig where
  classes_to_skip : List ℤ
  multiple_bb_per_instance : Bool

/-- BoundingBoxes.process_step on the two label images: build the skip mask,
enumerate the distinct instance ids of the unmasked region (ascending, as
numpy.unique yields them), and for each instance filter its class counts
and write its box(es) — one per retained non-skipped class when
multiple_bb_per_instance is set, else a single box labelled with the lowest
retained class id (the skip list is not consulted in that branch), over the
pixels of all retained classes.  An instance whose retained class list is
empty raises ValueError at numpy.min, caught, writing nothing. -/
def process_step (cfg : BBConfig) (sem inst : Grid) : List BBox :=
  let px := gridPixels sem inst
  let skip := cfg.classes_to_skip
  let ids := sortedDedupInt
    ((px.filter fun p => !skip.contains p.2.1).map fun p => p.2.2)
  let imgH := sem.length
  let imgW := (sem.headD []).length
  (ids.map fun i =>
    let ipx := px.filter fun p => p.2.2 == i
    let numPixels := ipx.length
    let cls := sortedDedupInt (ipx.map fun p => p.2.1)
    let counts := cls.map fun c => (c, (ipx.filter fun p => p.2.1 == c).length)
    let filtered := bbFilterCounts counts numPixels
    if cfg.multiple_bb_per_instance then
      (filtered.filter fun p => !skip.contains p.1).filterMap fun p =>
        write_bb ((ipx.filter fun q => q.2.1 == p.1).map Prod.fst)
          imgW imgH p.1
    else
      match filtered with
      | [] => []
      | _ =>
        let classId := listMinInt (filtered.map Prod.fst)
        let coords :=
          (ipx.filter fun q => (filtered.map Prod.fst).contains q.2.1).map
            Prod.fst
        (write_bb coords imgW imgH classId).toList).flatten

/-- Zero-pad a digit string on the left to six characters. -/
def pad6 (s : String) : String :=
  String.mk (List.replicate (6 - s.length) '0') ++ s

/-- Fixed-point rendering of a scaled nonnegative value: the digits of
n / 10^6 and n mod 10^6, the fraction zero-padded to six digits. -/
def fmt6OfNat (n : Nat) : String :=
  toString (n / 1000000) ++ "." ++ pad6 (toString (n % 1000000))

/-- Python "%.6f" formatting of a rational: round the value times 10^6 to
the nearest integer, ties to even, and print with six decimal places.  (The
Python runtime rounds the binary float64 value; for every number this file
formats, the float64 noise is orders of magnitude below the half-ulp of the
sixth decimal, so the exact rational rounding agrees.) -/
def fmt6 (q : ℚ) : String :=
  let n := roundHalfEven (q * 1000000)
  if n < 0 then "-" ++ fmt6OfNat n.natAbs else fmt6OfNat n.toNat

/-- The output line written for one box: f-string of _convert_to_output
_format — class id and the four fields with six decimals, space-separated. -/
def renderBB (b : BBox) : String :=
  toString b.classId ++ " " ++ fmt6 b.xc ++ " " ++ fmt6 b.yc ++ " " ++
    fmt6 b.wn ++ " " ++ fmt6 b.hn

/-- The text lines process_step writes to the step's output file, in order. -/
def process_step_lines (cfg : BBConfig) (sem inst : Grid) : List String :=
  (process_step cfg sem inst).map renderBB

/-! ## Instance-segmentation collision check

Model of the instance_segmentation branch of
pixel_annotation.postprocess_functions.  The quantized pixel rows are
3-vectors of integers; the hash is a parameter standing for
utility.hash_vector, which the branch applies through numpy.vectorize —
one output per input row. -/

/-- Lexicographic comparison of quantized pixel rows, the order in which
numpy.unique(axis=0) returns them. -/
def vecLe (a b : ℤ × ℤ × ℤ) : Bool :=
  if a.1 < b.1 then true
  else if b.1 < a.1 then false
  else if a.2.1 < b.2.1 then true
  else if b.2.1 < a.2.1 then false
  else a.2.2 ≤ b.2.2

/-- numpy.unique(..., axis=0) on the quantized rows: the distinct rows in
ascending lexicographic order. -/
def uniqueRows (pixels : List (ℤ × ℤ × ℤ)) : List (ℤ × ℤ × ℤ) :=
  pixels.dedup.insertionSort fun a b => vecLe a b = true

/-- The collision-warning condition of postprocess_functions: values is the
array of unique quantized rows, instance_id the elementwise hash of values,
and the warning fires when values.shape[0] != instance_id.shape[0]. -/
def collisionWarningFires (h : ℤ × ℤ × ℤ → ℤ)
    (pixels : List (ℤ × ℤ × ℤ)) : Bool :=
  let values := uniqueRows pixels
  let instanceIds := values.map h
  decide (values.length ≠ instanceIds.length)

/-! ## Claim about the instance-identity hasher -/

/-- C2 counterexample: the positions (-0.0004, 0, 0) and (0, 0, 0) quantize
to the same nearest-integer millimeter vector (0, 0, 0), yet their
identities differ — numpy.round keeps the sign of the input, the negative
coordinate rounds to -0.0, and struct.pack emits its sign bit, so the
digests of the two packed byte strings disagree.  Integer-level
quantization does not determine the identity. -/
theorem claim2_counterexample :
    roundHalfEven ((-1/2500 : ℚ) * 1000) = roundHalfEven ((0 : ℚ) * 1000) ∧
      calculate_instance_id (-1/2500, 0, 0) ≠ calculate_instance_id (0, 0, 0) := by
  exact ⟨by decide, by decide⟩

/-- C2 amended: the instance identity quantizes each coordinate to
millimeters as an integral float64 (multiply by 1000, numpy.round — ties to
even, sign of zero preserved, so a negative coordinate rounding to zero
gives -0.0), packs the three quantized values as fixed-width 32-bit floats
in x, y, z order (with -0.0 keeping its sign bit), hashes with SHA-256, and
reads the first 8 digest bytes as a signed big-endian 64-bit integer; it is
deterministic in the signed quantization — equal signed quantizations give
equal identities, and repeated evaluation at the same position gives the
same identity. -/
theorem claim2_instance_identity_amended (p q : ℚ × ℚ × ℚ)
    (hq : (specQuantizeMM p.1, specQuantizeMM p.2.1, specQuantizeMM p.2.2) =
      (specQuantizeMM q.1, specQuantizeMM q.2.1, specQuantizeMM q.2.2)) :
    calculate_instance_id p = specIdentity p ∧
      calculate_instance_id p = calculate_instance_id q ∧
      calculate_instance_id p = calculate_instance_id p := by
  have key : ∀ r : ℚ × ℚ × ℚ, calculate_instance_id r = specIdentity r := by
    intro r
    simp [calculate_instance_id, specIdentity, hash_vector, packVector,
      specQuantizeMM, mul_comm]
  have h1 : specQuantizeMM p.1 = specQuantizeMM q.1 := congrArg Prod.fst hq
  have h2 : specQuantizeMM p.2.1 = specQuantizeMM q.2.1 :=
    congrArg (fun t => t.2.1) hq
  have h3 : specQuantizeMM p.2.2 = specQuantizeMM q.2.2 :=
    congrArg (fun t => t.2.2) hq
  refine ⟨key p, ?_, rfl⟩
  rw [key p, key q]
  unfold specIdentity
  rw [h1, h2, h3]

/-- C2 witness: the positions (0.0004, 0, 0) and (0, 0, 0) have the same
signed quantization (+0.0 in every coordinate — the collapse is only on the
positive side), so the amended theorem applies and their identities
agree. -/
theorem claim2_instance_identity_amended_witness :
    calculate_instance_id (1/2500, 0, 0) = specIdentity (1/2500, 0, 0) ∧
      calculate_instance_id (1/2500, 0, 0) = calculate_instance_id (0, 0, 0) ∧
      calculate_instance_id (1/2500, 0, 0) =
        calculate_instance_id (1/2500, 0, 0) :=
  claim2_instance_identity_amended (1/2500, 0, 0) (0, 0, 0) (by decide)

/-! ## Claims about the lock-guarded ledger operations -/

/-- C4 counterexample: a lock that frees after 7 seconds is acquirable
within the claimed 10-second window, so the claim predicts success, but the
postprocessor write (timeout 5) raises the lock-timeout error — its window
is 5 seconds, not 10 (the spec-modelled 10-second write succeeds there). -/
theorem claim4_counterexample :
    (safe_write (fun _ => 7) (fun _ => (none : Option (WriterData Unit)))
        "metadata.yaml" []).1 = .error .lockTimeout ∧
      (specSafeWrite (fun _ => 7) (fun _ => (none : Option (WriterData Unit)))
        "metadata.yaml" []).1 = .ok () := ⟨rfl, rfl⟩

/-- C4 amended: every postprocessor ledger read and write acquires the
exclusive advisory lock at the ledger path plus ".lock" with a 5-second
timeout (not 10): the operation raises the lock-timeout error exactly when
the lock is not acquirable within 5 seconds, a timed-out write leaves the
filesystem unchanged, and both operations depend on the lock state only
through the lock at path ++ ".lock". -/
theorem claim4_lock_amended {A : Type} (locks locks' : LockState)
    (fs : FileSys A) (path : String) (d : WriterData A)
    (hsame : locks (lockPathOf path) = locks' (lockPathOf path)) :
    ((safe_write locks fs path d).1 = .error .lockTimeout ↔
      5 < locks (lockPathOf path)) ∧
      (5 < locks (lockPathOf path) → (safe_write locks fs path d).2 = fs) ∧
      ((safe_read locks fs path = .error .lockTimeout) ↔
        5 < locks (lockPathOf path)) ∧
      safe_write locks fs path d = safe_write locks' fs path d ∧
      safe_read locks fs path = safe_read locks' fs path := by
  by_cases h : 5 < locks (lockPathOf path)
  · have h' : 5 < locks' (lockPathOf path) := hsame ▸ h
    simp [safe_write, safe_read, h, h']
  · have h' : ¬5 < locks' (lockPathOf path) := hsame ▸ h
    refine ⟨?_, ?_, ?_, ?_, ?_⟩
    · simp [safe_write, h]
    · exact fun hc => absurd hc h
    · cases hfs : fs path <;> simp [safe_read, h, hfs]
    · simp [safe_write, h, h']
    · simp [safe_read, h, h']

/-- C4 witness: at the lock that frees after 7 seconds, the amended theorem
yields the timeout error and the untouched filesystem. -/
theorem claim4_lock_amended_witness :
    (safe_write (fun _ => 7) (fun _ => (none : Option (WriterData Unit)))
        "metadata.yaml" []).1 = .error .lockTimeout ∧
      (safe_write (fun _ => 7) (fun _ => (none : Option (WriterData Unit)))
        "metadata.yaml" []).2 = fun _ => none :=
  ⟨(claim4_lock_amended (fun _ => 7) (fun _ => 7) (fun _ => none)
      "metadata.yaml" [] rfl).1.mpr (by decide),
   (claim4_lock_amended (fun _ => 7) (fun _ => 7) (fun _ => none)
      "metadata.yaml" [] rfl).2.1 (by decide)⟩

/-- C6 counterexample: reading an absent path through the postprocessor's
ledger read does not succeed with an empty record — _safe_read has no
absent-file handling, so Python's open raises FileNotFoundError. -/
theorem claim6_counterexample :
    safe_read (fun _ => 0) (fun _ => (none : Option (WriterData Unit)))
        "metadata.yaml" = .error .fileNotFound ∧
      safe_read (fun _ => 0) (fun _ => (none : Option (WriterData Unit)))
        "metadata.yaml" ≠ .ok [] := by
  refine ⟨rfl, ?_⟩
  simp [safe_read]

/-- C6 amended: on an absent ledger path (with the lock acquirable), the
writer-side read performed by AtomicYAMLWriter.__enter__ succeeds and
returns the empty record, while the postprocessor-side _safe_read raises
FileNotFoundError. -/
theorem claim6_absent_read_amended {A : Type} (locks : LockState)
    (fs : FileSys A) (path : String) (h10 : locks (lockPathOf path) ≤ 10)
    (h5 : locks (lockPathOf path) ≤ 5) (habs : fs path = none) :
    atomicWriterEnter locks fs path = .ok ([] : WriterData A) ∧
      safe_read locks fs path = .error .fileNotFound := by
  constructor
  · simp [atomicWriterEnter, Nat.not_lt.mpr h10, habs]
  · simp [safe_read, Nat.not_lt.mpr h5, habs]

/-- C6 witness: the amended theorem at a free lock and an empty
filesystem. -/
theorem claim6_absent_read_amended_witness :
    atomicWriterEnter (fun _ => 0) (fun _ => (none : Option (WriterData Unit)))
        "metadata.yaml" = .ok [] ∧
      safe_read (fun _ => 0) (fun _ => (none : Option (WriterData Unit)))
        "metadata.yaml" = .error .fileNotFound :=
  claim6_absent_read_amended (fun _ => 0) (fun _ => none) "metadata.yaml"
    (by decide) (by decide) rfl

/-! ## Concrete scenario inputs -/

/-- A 10-pixel row of zeros. -/
def zeros10 : List ℤ := List.replicate 10 0

/-- A 10-pixel row with value v in columns 2 through 7. -/
def mid10 (v : ℤ) : List ℤ := [0, 0, v, v, v, v, v, v, 0, 0]

/-- A 10-by-10 image with value v filling rows 2-7, columns 2-7, and 0
elsewhere. -/
def bandGrid (v : ℤ) : Grid :=
  [zeros10, zeros10, mid10 v, mid10 v, mid10 v, mid10 v, mid10 v, mid10 v,
   zeros10, zeros10]

/-- A 6-pixel row of a constant value. -/
def rep6 (v : ℤ) : List ℤ := List.replicate 6 v

/-- 6-by-6 semantic image: class 3 in rows 0-2, class 5 in rows 3-4,
class 0 in row 5. -/
def semSkip : Grid := [rep6 3, rep6 3, rep6 3, rep6 5, rep6 5, rep6 0]

/-- 6-by-6 instance image: instance 1 in rows 0-4, instance 0 in row 5. -/
def instSkip : Grid := [rep6 1, rep6 1, rep6 1, rep6 1, rep6 1, rep6 0]

/-! ## Claim about step discovery -/

/-- The keys of the freshly discovered records are the intersection filtered
by freshness: mapping Prod.fst over the materialization collapses to the
filtered step list itself. -/
theorem discoveredSteps_eq {A : Type} (processed : List (Nat × StepRec A))
    (metas : List (SourceMeta A)) :
    discoveredSteps processed metas =
      (intersection_of_available_steps metas).filter
        fun s => !(processed.map Prod.fst).contains s := by
  simp [discoveredSteps, get_dict_of_available_steps, List.map_map,
    Function.comp_def]

/-- Membership in _intersection_of_available_steps is membership in every
source's step-key set, provided there is at least one source. -/
theorem mem_intersection {A : Type} (metas : List (SourceMeta A))
    (hne : metas ≠ []) (s : Nat) :
    s ∈ intersection_of_available_steps metas ↔ ∀ m ∈ metas, s ∈ stepKeys m := by
  cases metas with
  | nil => exact absurd rfl hne
  | cons m0 rest =>
    simp [intersection_of_available_steps, List.all_eq_true,
      List.forall_mem_map, List.forall_mem_cons]

/-- C1: one metadata-update pass discovers exactly the step numbers lying in
every required source's step set and not already present in the unit's
internal step record; a second pass over the updated record discovers
nothing (each step is discovered exactly once across passes), and every
freshly materialized record carries finished = false. -/
theorem claim1_step_intersection {A : Type} (metas : List (SourceMeta A))
    (processed : List (Nat × StepRec A)) (s : Nat) (hne : metas ≠ []) :
    (s ∈ discoveredSteps processed metas ↔
      (∀ m ∈ metas, s ∈ stepKeys m) ∧ s ∉ processed.map Prod.fst) ∧
      discoveredSteps (updateMetadataPass processed metas) metas = [] ∧
      ∀ q ∈ get_dict_of_available_steps processed metas
        (intersection_of_available_steps metas), q.2.finished = false := by
  refine ⟨?_, ?_, ?_⟩
  · rw [discoveredSteps_eq, List.mem_filter, mem_intersection metas hne s]
    simp
  · rw [discoveredSteps_eq]
    apply List.filter_eq_nil_iff.mpr
    intro a ha
    have hmem : a ∈ (updateMetadataPass processed metas).map Prod.fst := by
      rw [updateMetadataPass, List.map_append]
      by_cases hp : a ∈ processed.map Prod.fst
      · exact List.mem_append_left _ hp
      · refine List.mem_append_right _ ?_
        have hd : a ∈ discoveredSteps processed metas := by
          rw [discoveredSteps_eq, List.mem_filter]
          refine ⟨ha, ?_⟩
          simpa using hp
        simpa [discoveredSteps] using hd
    simp [hmem]
  · intro q hq
    simp only [get_dict_of_available_steps, List.mem_map] at hq
    obtain ⟨s', -, rfl⟩ := hq
    rfl

/-- The three source ledgers of the reference scenario, with step sets
{1,2,3}, {2,3,4} and {2,3}. -/
def scenarioMetas : List (SourceMeta Unit) :=
  [⟨[(1, ()), (2, ()), (3, ())]⟩, ⟨[(2, ()), (3, ()), (4, ())]⟩,
   ⟨[(2, ()), (3, ())]⟩]

/-- C1 witness: on the {1,2,3}, {2,3,4}, {2,3} scenario with an empty step
record, the pass discovers exactly [2, 3], 2 is discovered, and a second
pass discovers nothing. -/
theorem claim1_step_intersection_witness :
    discoveredSteps ([] : List (Nat × StepRec Unit)) scenarioMetas = [2, 3] ∧
      2 ∈ discoveredSteps ([] : List (Nat × StepRec Unit)) scenarioMetas ∧
      discoveredSteps (updateMetadataPass [] scenarioMetas) scenarioMetas =
        [] :=
  ⟨by decide,
   (claim1_step_intersection scenarioMetas [] 2 (by decide)).1.mpr (by decide),
   (claim1_step_intersection scenarioMetas [] 3 (by decide)).2.1⟩

/-! ## Claim about the ledger round trip -/

/-- The steps mapping built by a writer session that starts from an empty
record and performs the given add_step calls in order. -/
def sessionSteps {A : Type} (adds : List (Nat × A)) : WriterData A :=
  adds.foldl (fun d p => add_step d p.1 p.2) []

/-- A fresh-ledger round trip: an AtomicYAMLWriter session (enter, the
add_step calls, exit writing the file) against an empty filesystem with a
free lock, followed by a _safe_read of the same path. -/
def ledgerRoundTrip {A : Type} (adds : List (Nat × A)) :
    Except LedgerError (WriterData A) :=
  match atomicWriterRun (fun _ => 0) (fun _ => none) "metadata.yaml" adds with
  | .ok fs => safe_read (fun _ => 0) fs "metadata.yaml"
  | .error e => .error e

/-- Association-list lookup distributes over append, preferring the left
list. -/
theorem lookup_append_eq {A : Type} (l₁ l₂ : List (Nat × A)) (k : Nat) :
    List.lookup k (l₁ ++ l₂) = (List.lookup k l₁).or (List.lookup k l₂) := by
  induction l₁ with
  | nil => simp [List.lookup]
  | cons p t ih =>
    obtain ⟨a, b⟩ := p
    by_cases hk : k = a
    · subst hk
      simp [List.lookup]
    · have hba : (k == a) = false := beq_eq_false_iff_ne.mpr hk
      simp [List.lookup, hba, ih]

/-- With pairwise-distinct step numbers, the session's final steps mapping
has exactly the added keys and looks up exactly the added values. -/
theorem sessionSteps_spec {A : Type} (adds : List (Nat × A))
    (h : (adds.map Prod.fst).Nodup) :
    (sessionSteps adds).map Prod.fst = adds.map Prod.fst ∧
      ∀ k, List.lookup k (sessionSteps adds) = List.lookup k adds := by
  induction adds using List.reverseRecOn with
  | nil => simp [sessionSteps]
  | append_singleton l a ih =>
    obtain ⟨k0, v0⟩ := a
    rw [List.map_append] at h
    have hnd : (l.map Prod.fst).Nodup := h.of_append_left
    have hk0 : k0 ∉ l.map Prod.fst := by
      intro hc
      exact (List.disjoint_of_nodup_append h) hc (by simp)
    obtain ⟨ihk, ihl⟩ := ih hnd
    have hsess : sessionSteps (l ++ [(k0, v0)]) =
        sessionSteps l ++ [(k0, v0)] := by
      have hcont : ((sessionSteps l).map Prod.fst).contains k0 = false := by
        rw [ihk]
        simpa using hk0
      have hstep : sessionSteps (l ++ [(k0, v0)]) =
          add_step (sessionSteps l) k0 v0 := by
        simp [sessionSteps, List.foldl_append]
      rw [hstep]
      simp only [add_step, dictInsert, hcont]
      simp
    constructor
    · rw [hsess, List.map_append, ihk, List.map_append]
    · intro k
      rw [hsess, lookup_append_eq, ihl k, lookup_append_eq]

/-- Under pairwise-distinct keys, lookup returns some v exactly when the
pair is in the list. -/
theorem lookup_eq_some_iff {A : Type} (l : List (Nat × A))
    (h : (l.map Prod.fst).Nodup) (k : Nat) (v : A) :
    List.lookup k l = some v ↔ (k, v) ∈ l := by
  induction l with
  | nil => simp [List.lookup]
  | cons p t ih =>
    obtain ⟨a, b⟩ := p
    simp only [List.map_cons, List.nodup_cons] at h
    by_cases hk : k = a
    · subst hk
      simp only [List.lookup, beq_self_eq_true, List.mem_cons]
      constructor
      · rintro h'
        exact Or.inl (by simpa using h'.symm)
      · rintro (h' | hmem)
        · simp only [Prod.ext_iff, true_and] at h'
          exact congrArg some h'.symm
        · exact absurd (List.mem_map_of_mem Prod.fst hmem) h.1
    · have hba : (k == a) = false := beq_eq_false_iff_ne.mpr hk
      simp only [List.lookup, hba, List.mem_cons]
      rw [ih h.2]
      constructor
      · exact Or.inr
      · rintro (h' | hmem)
        · exact absurd (congrArg Prod.fst h') hk
        · exact hmem

/-- Lookup misses exactly the keys outside the mapping. -/
theorem lookup_eq_none_iff {A : Type} (l : List (Nat × A)) (k : Nat) :
    List.lookup k l = none ↔ k ∉ l.map Prod.fst := by
  induction l with
  | nil => simp [List.lookup]
  | cons p t ih =>
    obtain ⟨a, b⟩ := p
    by_cases hk : k = a
    · subst hk
      simp [List.lookup]
    · have hba : (k == a) = false := beq_eq_false_iff_ne.mpr hk
      simp [List.lookup, hba, ih, hk]

/-- Under pairwise-distinct keys, lookup is invariant under permutation of
the call sequence. -/
theorem lookup_perm {A : Type} {l l' : List (Nat × A)} (hp : l.Perm l')
    (h : (l.map Prod.fst).Nodup) (k : Nat) :
    List.lookup k l = List.lookup k l' := by
  have h' : (l'.map Prod.fst).Nodup := ((hp.map Prod.fst).nodup_iff).mp h
  cases hv : List.lookup k l with
  | some v =>
    exact ((lookup_eq_some_iff l' h' k v).mpr
      (hp.subset ((lookup_eq_some_iff l h k v).mp hv))).symm
  | none =>
    refine ((lookup_eq_none_iff l' k).mpr ?_).symm
    intro hc
    exact (lookup_eq_none_iff l k).mp hv (((hp.map Prod.fst).mem_iff).mpr hc)

/-- C5: for any sequence of add_step calls with distinct step numbers on a
fresh ledger, the write-then-read round trip returns the session's steps
mapping unchanged, that mapping contains exactly the added steps with their
original artifact lists, and any permutation of the call order produces the
same mapping. -/
theorem claim5_ledger_roundtrip {A : Type} (adds adds' : List (Nat × A))
    (k : Nat) (v : A) (hnd : (adds.map Prod.fst).Nodup)
    (hperm : adds.Perm adds') :
    ledgerRoundTrip adds = .ok (sessionSteps adds) ∧
      (List.lookup k (sessionSteps adds) = some v ↔ (k, v) ∈ adds) ∧
      List.lookup k (sessionSteps adds') = List.lookup k (sessionSteps adds) := by
  have hnd' : (adds'.map Prod.fst).Nodup := ((hperm.map Prod.fst).nodup_iff).mp hnd
  refine ⟨rfl, ?_, ?_⟩
  · rw [(sessionSteps_spec adds hnd).2 k]
    exact lookup_eq_some_iff adds hnd k v
  · rw [(sessionSteps_spec adds hnd).2 k, (sessionSteps_spec adds' hnd').2 k]
    exact (lookup_perm hperm hnd k).symm

/-- C5 witness: adding steps 2 then 0 (and the permuted order 0 then 2)
round-trips, looks up step 2's original artifact value, and agrees across
the two orders. -/
theorem claim5_ledger_roundtrip_witness :
    ledgerRoundTrip [(2, 10), (0, 20)] = .ok (sessionSteps [(2, 10), (0, 20)]) ∧
      List.lookup 2 (sessionSteps [(2, (10 : Nat)), (0, 20)]) = some 10 ∧
      List.lookup 2 (sessionSteps [(0, (20 : Nat)), (2, 10)]) =
        List.lookup 2 (sessionSteps [(2, (10 : Nat)), (0, 20)]) :=
  ⟨(claim5_ledger_roundtrip [(2, 10), (0, 20)] [(0, 20), (2, 10)] 2 10
      (by decide) (by decide)).1,
   (claim5_ledger_roundtrip [(2, 10), (0, 20)] [(0, 20), (2, 10)] 2 10
      (by decide) (by decide)).2.1.mpr (by decide),
   (claim5_ledger_roundtrip [(2, 10), (0, 20)] [(0, 20), (2, 10)] 2 10
      (by decide) (by decide)).2.2⟩

/-! ## Claim about termination of the run loop -/

/-- With a single source, the intersection of available steps is that
source's step-key list. -/
theorem intersection_single {A : Type} (m : SourceMeta A) :
    intersection_of_available_steps [m] = stepKeys m := by
  simp only [intersection_of_available_steps, List.map_cons, List.map_nil,
    List.headD_cons]
  apply List.filter_eq_self.mpr
  intro a ha
  simpa using ha

/-- Keys after a metadata-update pass: the old keys followed by the freshly
discovered step numbers. -/
theorem updateMetadataPass_keys {A : Type} (processed : List (Nat × StepRec A))
    (metas : List (SourceMeta A)) :
    (updateMetadataPass processed metas).map Prod.fst =
      processed.map Prod.fst ++ discoveredSteps processed metas := by
  simp [updateMetadataPass, discoveredSteps]

/-- A metadata-update pass does not change the finished count: every freshly
materialized record is unfinished. -/
theorem finished_count_updateMetadataPass {A : Type}
    (processed : List (Nat × StepRec A)) (metas : List (SourceMeta A)) :
    finished_count (updateMetadataPass processed metas) =
      finished_count processed := by
  have hnil : (get_dict_of_available_steps processed metas
      (intersection_of_available_steps metas)).filter
        (fun p => p.2.finished) = [] := by
    apply List.filter_eq_nil_iff.mpr
    intro q hq
    simp only [get_dict_of_available_steps, List.mem_map] at hq
    obtain ⟨s', -, rfl⟩ := hq
    simp
  simp [updateMetadataPass, finished_count, List.filter_append, hnil]

/-- The step keys after one poll: the old keys followed by the fresh step
numbers of the ledger snapshot just read. -/
theorem pollSource_keys (trace : Nat → List Nat) (s : PPState) :
    (pollSource trace s).processed.map Prod.fst =
      s.processed.map Prod.fst ++
        (trace s.reads).filter
          (fun n => !(s.processed.map Prod.fst).contains n) := by
  show (updateMetadataPass s.processed _).map Prod.fst = _
  rw [updateMetadataPass_keys, discoveredSteps_eq, intersection_single]
  have hsk : stepKeys (SourceMeta.mk ((trace s.reads).map fun n => (n, ()))) =
      trace s.reads := by
    simp [stepKeys, List.map_map, Function.comp_def]
  rw [hsk]

/-- One poll increments the read counter by exactly one. -/
theorem pollSource_reads (trace : Nat → List Nat) (s : PPState) :
    (pollSource trace s).reads = s.reads + 1 := rfl

/-- The finished count never exceeds the record count. -/
theorem finished_count_le_length {A : Type} (l : List (Nat × StepRec A)) :
    finished_count l ≤ l.length :=
  List.length_filter_le _ _

/-- A record with pairwise-distinct keys all below 5 has at most 5
entries. -/
theorem keys_length_le_five (l : List (Nat × StepRec Unit))
    (hnd : (l.map Prod.fst).Nodup) (hlt : ∀ k ∈ l.map Prod.fst, k < 5) :
    l.length ≤ 5 := by
  rw [← List.length_map l Prod.fst, ← List.toFinset_card_of_nodup hnd]
  have hsub : (l.map Prod.fst).toFinset ⊆ Finset.range 5 := by
    intro x hx
    simp only [List.mem_toFinset] at hx
    simpa using hlt x hx
  simpa using Finset.card_le_card hsub

/-- A record containing every step number below 5 has at least 5 entries. -/
theorem five_le_length (l : List (Nat × StepRec Unit))
    (hcov : ∀ k, k < 5 → k ∈ l.map Prod.fst) : 5 ≤ l.length := by
  have hsub : Finset.range 5 ⊆ (l.map Prod.fst).toFinset := by
    intro x hx
    simp only [Finset.mem_range] at hx
    simpa [List.mem_toFinset] using hcov x hx
  calc 5 = (Finset.range 5).card := by simp
  _ ≤ (l.map Prod.fst).toFinset.card := Finset.card_le_card hsub
  _ ≤ (l.map Prod.fst).length := List.toFinset_card_le _
  _ = l.length := List.length_map l Prod.fst

/-- When fewer records are finished than exist, _get_unprocessed_step finds
an unfinished one. -/
theorem get_unprocessed_of_lt (l : List (Nat × StepRec Unit))
    (h : finished_count l < l.length) :
    ∃ p, get_unprocessed_step l = some p ∧ p ∈ l ∧ p.2.finished = false := by
  have hex : ∃ x ∈ l, (!x.2.finished) = true := by
    by_contra hc
    push_neg at hc
    have hall : ∀ x ∈ l, x.2.finished = true := by
      intro x hx
      simpa using hc x hx
    have hself : l.filter (fun p => p.2.finished) = l :=
      List.filter_eq_self.mpr fun a ha => by simpa using hall a ha
    rw [finished_count, hself] at h
    exact absurd h (lt_irrefl _)
  have hsome : (l.find? fun p => !p.2.finished).isSome :=
    List.find?_isSome.mpr hex
  obtain ⟨p, hp⟩ := Option.isSome_iff_exists.mp hsome
  refine ⟨p, hp, List.mem_of_find?_eq_some hp, ?_⟩
  simpa using List.find?_some hp

/-- Marking a step finished does not change the key list. -/
theorem update_keys (l : List (Nat × StepRec Unit)) (n : Nat) :
    (update_processed_step_dict l n).map Prod.fst = l.map Prod.fst := by
  rw [update_processed_step_dict, List.map_map]
  apply List.map_congr_left
  intro p _
  by_cases h : p.1 = n <;> simp [h]

/-- Marking an absent step is a no-op. -/
theorem update_not_mem (l : List (Nat × StepRec Unit)) (n : Nat)
    (h : n ∉ l.map Prod.fst) : update_processed_step_dict l n = l := by
  induction l with
  | nil => rfl
  | cons p t ih =>
    simp only [List.map_cons, List.mem_cons, not_or] at h
    have hp : (p.1 == n) = false :=
      beq_eq_false_iff_ne.mpr fun hc => h.1 hc.symm
    rw [show update_processed_step_dict (p :: t) n =
        (if p.1 == n then (p.1, { p.2 with finished := true }) else p) ::
          update_processed_step_dict t n from rfl]
    rw [ih h.2, hp]
    simp

/-- Marking an unfinished step with a unique key raises the finished count
by exactly one. -/
theorem finished_count_update (l : List (Nat × StepRec Unit)) (n : Nat)
    (hnd : (l.map Prod.fst).Nodup) (r : StepRec Unit) (hmem : (n, r) ∈ l)
    (hr : r.finished = false) :
    finished_count (update_processed_step_dict l n) =
      finished_count l + 1 := by
  induction l with
  | nil => simp at hmem
  | cons p t ih =>
    simp only [List.map_cons, List.nodup_cons] at hnd
    by_cases hpn : p.1 = n
    · have hnin : n ∉ t.map Prod.fst := hpn ▸ hnd.1
      have hpr : p = (n, r) := by
        rcases List.mem_cons.mp hmem with heq | hmem'
        · exact heq.symm
        · exact absurd (by simpa using List.mem_map_of_mem Prod.fst hmem')
            hnin
      subst hpr
      simp only [update_processed_step_dict, List.map_cons,
        beq_self_eq_true, if_true]
      rw [show (List.map (fun q => if q.1 == n then
            (q.1, { q.2 with finished := true }) else q) t) =
          update_processed_step_dict t n from rfl, update_not_mem t n hnin]
      simp [finished_count, List.filter_cons, hr]
    · have hb : (p.1 == n) = false := by simp [hpn]
      have hmem' : (n, r) ∈ t := by
        rcases List.mem_cons.mp hmem with heq | hmem'
        · exact absurd (congrArg Prod.fst heq).symm hpn
        · exact hmem'
      have iht := ih hnd.2 hmem'
      simp only [update_processed_step_dict, List.map_cons, hb,
        if_false] at *
      by_cases hfin : p.2.finished = true <;>
        simp [finished_count, List.filter_cons, hfin] at iht ⊢ <;>
        omega

/-- One-step unfolding of the run loop at positive fuel. -/
theorem runLoop_succ (trace : Nat → List Nat) (expected fuel : Nat)
    (s : PPState) :
    runLoop trace expected (fuel + 1) s =
      if finished_all_steps expected s.processed then some s
      else
        match get_unprocessed_step (pollSource trace s).processed with
        | some p =>
          runLoop trace expected fuel
            ⟨update_processed_step_dict (pollSource trace s).processed p.1,
              (pollSource trace s).reads⟩
        | none => runLoop trace expected fuel (pollSource trace s) := rfl

/-- Fuel-indexed termination: from any loop state with distinct step keys
below 5, once the trace is pinned to the full step set from read N on, the
loop reaches the all-steps-done state within (N - reads) + (5 - finished)
further iterations, performing exactly one ledger read per iteration. -/
theorem runLoop_reaches (trace : Nat → List Nat) (N : Nat)
    (hN : ∀ i, N ≤ i → trace i = [0, 1, 2, 3, 4])
    (hsub : ∀ i, ∀ k ∈ trace i, k < 5)
    (hnd : ∀ i, (trace i).Nodup) :
    ∀ fuel s,
      (s.processed.map Prod.fst).Nodup →
      (∀ k ∈ s.processed.map Prod.fst, k < 5) →
      (N - s.reads) + (5 - finished_count s.processed) < fuel →
      ∃ t, runLoop trace 5 fuel s = some t ∧
        finished_all_steps 5 t.processed = true ∧
        t.reads ≤ s.reads +
          ((N - s.reads) + (5 - finished_count s.processed)) := by
  intro fuel
  induction fuel with
  | zero =>
    intro s _ _ hlt
    omega
  | succ fuel ih =>
    intro s hnds hlts hfuel
    by_cases hfin : finished_all_steps 5 s.processed = true
    · exact ⟨s, by rw [runLoop_succ, if_pos hfin], hfin, by omega⟩
    · have hfc5 : finished_count s.processed ≠ 5 := by
        simpa [finished_all_steps] using hfin
      have hle : finished_count s.processed ≤ 5 :=
        le_trans (finished_count_le_length _)
          (keys_length_le_five _ hnds hlts)
      have hfclt : finished_count s.processed < 5 := lt_of_le_of_ne hle hfc5
      have hkeys' := pollSource_keys trace s
      have hnds' : ((pollSource trace s).processed.map Prod.fst).Nodup := by
        rw [hkeys']
        refine List.Nodup.append hnds ((hnd s.reads).filter _) ?_
        intro a ha hb
        have := (List.mem_filter.mp hb).2
        simp only [Bool.not_eq_true'] at this
        revert this
        simp [ha]
      have hlts' : ∀ k ∈ (pollSource trace s).processed.map Prod.fst,
          k < 5 := by
        rw [hkeys']
        intro k hk
        rcases List.mem_append.mp hk with h | h
        · exact hlts k h
        · exact hsub s.reads k (List.mem_of_mem_filter h)
      have hfc' : finished_count (pollSource trace s).processed =
          finished_count s.processed :=
        finished_count_updateMetadataPass s.processed _
      have hru : (pollSource trace s).reads = s.reads + 1 := rfl
      cases hget : get_unprocessed_step (pollSource trace s).processed with
      | some p =>
        have hpmem : p ∈ (pollSource trace s).processed :=
          List.mem_of_find?_eq_some hget
        have hpfin : p.2.finished = false := by
          simpa using List.find?_some hget
        have hfcu : finished_count
            (update_processed_step_dict (pollSource trace s).processed p.1) =
            finished_count (pollSource trace s).processed + 1 :=
          finished_count_update _ _ hnds' p.2 (by simpa using hpmem) hpfin
        obtain ⟨t, ht, htfin, htre⟩ :=
          ih ⟨update_processed_step_dict (pollSource trace s).processed p.1,
              (pollSource trace s).reads⟩
            (by rw [update_keys]; exact hnds')
            (by rw [update_keys]; exact hlts')
            (by
              show (N - (pollSource trace s).reads) +
                (5 - finished_count (update_processed_step_dict
                  (pollSource trace s).processed p.1)) < fuel
              rw [hfcu, hfc', hru]
              omega)
        refine ⟨t, ?_, htfin, ?_⟩
        · rw [runLoop_succ, if_neg hfin, hget]
          exact ht
        · have htre' : t.reads ≤ (pollSource trace s).reads +
              ((N - (pollSource trace s).reads) +
                (5 - finished_count (update_processed_step_dict
                  (pollSource trace s).processed p.1))) := htre
          rw [hfcu, hfc', hru] at htre'
          omega
      | none =>
        have hNlt : s.reads < N := by
          by_contra hge
          push_neg at hge
          have hcov : ∀ k, k < 5 →
              k ∈ (pollSource trace s).processed.map Prod.fst := by
            intro k hk
            rw [hkeys']
            by_cases hin : k ∈ s.processed.map Prod.fst
            · exact List.mem_append_left _ hin
            · refine List.mem_append_right _ (List.mem_filter.mpr ⟨?_, ?_⟩)
              · rw [hN s.reads hge]
                simp only [List.mem_cons, List.mem_singleton]
                omega
              · simpa using hin
          have hlen : 5 ≤ (pollSource trace s).processed.length :=
            five_le_length _ hcov
          have hltlen : finished_count (pollSource trace s).processed <
              (pollSource trace s).processed.length := by
            rw [hfc']
            omega
          obtain ⟨p, hp, -, -⟩ := get_unprocessed_of_lt _ hltlen
          rw [hget] at hp
          exact Option.noConfusion hp
        obtain ⟨t, ht, htfin, htre⟩ :=
          ih (pollSource trace s) hnds' hlts'
            (by rw [hfc', hru]; omega)
        refine ⟨t, ?_, htfin, ?_⟩
        · rw [runLoop_succ, if_neg hfin, hget]
          exact ht
        · have htre' : t.reads ≤ (pollSource trace s).reads +
              ((N - (pollSource trace s).reads) +
                (5 - finished_count (pollSource trace s).processed)) := htre
          rw [hfc', hru] at htre'
          omega

/-- C3: a unit with expected_steps = 5 whose single source ledger always
holds a duplicate-free subset of steps 0..4 and, from some read N on,
exactly the steps 0..4, reaches the all-steps-done state: the run loop
returns within N + 6 iterations of fuel, and the whole run performs at most
N + 5 source-ledger reads — and since the run returns, no read happens
after termination (the post-loop finalization performs none, so the
returned total read count is final). -/
theorem claim3_termination (trace : Nat → List Nat) (N : Nat)
    (hN : ∀ i, N ≤ i → trace i = [0, 1, 2, 3, 4])
    (hsub : ∀ i, ∀ k ∈ trace i, k < 5)
    (hnd : ∀ i, (trace i).Nodup) :
    ∃ t, runPostprocessor trace 5 (N + 6) = some (t, t.reads) ∧
      finished_all_steps 5 t.processed = true ∧ t.reads ≤ N + 5 := by
  obtain ⟨t, ht, htfin, htre⟩ :=
    runLoop_reaches trace N hN hsub hnd (N + 6) ⟨[], 0⟩ (by simp) (by simp)
      (by simp [finished_count])
  refine ⟨t, ?_, htfin, ?_⟩
  · simp [runPostprocessor, ht]
  · simp [finished_count] at htre
    omega

/-- A source ledger trace that holds steps {0,1} for the first two reads and
exactly steps 0..4 from read 2 on. -/
def eventuallyTrace (i : Nat) : List Nat :=
  if i < 2 then [0, 1] else [0, 1, 2, 3, 4]

/-- C3 witness: with that trace the run returns — the loop reaches the
terminal state within fuel 8. -/
theorem claim3_termination_witness :
    (runPostprocessor eventuallyTrace 5 8).isSome = true := by
  obtain ⟨t, ht, -, -⟩ :=
    claim3_termination eventuallyTrace 2
      (fun i hi => by simp [eventuallyTrace, Nat.not_lt.mpr hi])
      (fun i k hk => by
        by_cases h : i < 2 <;> simp [eventuallyTrace, h] at hk <;> omega)
      (fun i => by by_cases h : i < 2 <;> simp [eventuallyTrace, h])
  rw [ht]
  rfl

/-! ## Claims about the bounding-box postprocessor -/

/-- C7 counterexample: on the 10x10 scenario (class 5 and a single instance
id filling rows 2-7, columns 2-7, background class 0 and background
instance id 0, classes_to_skip empty) process_step does not write the single
claimed line — it writes a box for the background instance as well, and the
object's width and height are (max - min)/10 = 0.5, not 0.6. -/
theorem claim7_counterexample :
    process_step_lines ⟨[], false⟩ (bandGrid 5) (bandGrid 1) ≠
      ["5 0.450000 0.450000 0.600000 0.600000"] := by decide

/-- C7 amended: on that scenario process_step writes exactly two lines, the
background box "0 0.450000 0.450000 0.900000 0.900000" followed by the
object box "5 0.450000 0.450000 0.500000 0.500000" — centers at
(4.5, 4.5)/10, but width and height computed as the coordinate span
max - min without the +1, giving 5/10 for the object, and the background
instance is boxed because no class is skipped. -/
theorem claim7_amended :
    process_step_lines ⟨[], false⟩ (bandGrid 5) (bandGrid 1) =
      ["0 0.450000 0.450000 0.900000 0.900000",
       "5 0.450000 0.450000 0.500000 0.500000"] := by decide

/-- C8 counterexample: a class assignment with exactly 5 pixels on an
instance of 100 pixels reaches 5 percent of the instance area, yet the
filter drops it — the absolute threshold is strict (count > 5). -/
theorem claim8_counterexample :
    ((7 : ℤ), (5 : Nat)) ∉ bbFilterCounts [((7 : ℤ), (5 : Nat))] 100 := by
  decide

/-- C8 amended: the per-instance filter of process_step retains exactly the
class assignments whose pixel count is strictly greater than 1 percent of
the instance's pixel total and strictly greater than 5 pixels; assignments
with exactly 5 pixels (or exactly 1 percent) are filtered out. -/
theorem claim8_amended (pairs : List (ℤ × Nat)) (numPixels : Nat)
    (p : ℤ × Nat) :
    p ∈ bbFilterCounts pairs numPixels ↔
      p ∈ pairs ∧ numPixels < 100 * p.2 ∧ 5 < p.2 := by
  simp only [bbFilterCounts, List.mem_filter, decide_eq_true_eq]
  tauto

/-- C10: with multiple_bb_per_instance false, the single-box branch labels
the box with the minimum retained class id without consulting
classes_to_skip, so an instance overlapping a skipped class (3) and a
non-skipped class (5) — discovered through its unmasked class-5 pixels —
is written with the skipped class id 3. -/
theorem claim10_skipped_class_single_mode :
    (process_step ⟨[3], false⟩ semSkip instSkip).map BBox.classId = [0, 3] ∧
      (3 : ℤ) ∈ (BBConfig.mk [3] false).classes_to_skip ∧
      process_step_lines ⟨[3], false⟩ semSkip instSkip =
        ["0 0.416667 0.833333 0.833333 0.000000",
         "3 0.416667 0.333333 0.833333 0.666667"] := by decide

/-! ## Claim about the collision check -/

/-- C9: the collision-warning condition of postprocess_functions compares
the number of unique quantized rows with the number of their hashes, which
are equal for every hash function and every image, so the warning never
fires — in particular not when two distinct rows collide under the hash. -/
theorem claim9_collision_never_logged :
    (∀ (h : ℤ × ℤ × ℤ → ℤ) (pixels : List (ℤ × ℤ × ℤ)),
        collisionWarningFires h pixels = false) ∧
      ∃ (h : ℤ × ℤ × ℤ → ℤ) (v w : ℤ × ℤ × ℤ),
        v ≠ w ∧ h v = h w ∧ collisionWarningFires h [v, w] = false := by
  constructor
  · intro h pixels
    simp [collisionWarningFires]
  · exact ⟨fun _ => 0, (0, 0, 0), (1, 0, 0), by decide, rfl, by
      simp [collisionWarningFires]⟩

end Syclops
